import Mathlib

/-!
Verification of the core data-shaping routines of the Fantasy Playoffs
Calculator (src/fantasy_playoffs_calculator.py) against its specification.

Modelling conventions:
* Python numbers (floats) are modelled as exact rationals `ℚ`; every
  arithmetic fact checked here involves only exact decimal values.
* Spreadsheet cells are modelled by `Cell`: `Cell.num q` stands for any cell
  content that Python's `float(...)` accepts (numbers and numeric strings),
  `Cell.str s` for text that `float(...)` rejects.
* Python dicts (which preserve insertion order) are modelled as association
  lists with `dictGet` / `dictSet`; `dictSet` updates an existing key in
  place and appends a fresh key, exactly like Python assignment.
* Python strings `.lower()` / `.strip()` are modelled by `pyLower` /
  `pyStrip` below (ASCII case folding and ASCII whitespace; all names
  occurring in the claims are ASCII).
* A Python run that would raise an uncaught exception is modelled by an
  `Option`-typed result being `none`.
-/

namespace Fpc

/-- A spreadsheet cell: numeric content (anything `float()` accepts) or
non-numeric text. -/
inductive Cell where
  | num : ℚ → Cell
  | str : String → Cell
deriving DecidableEq, Repr

/-- Python `float(cell)`: succeeds exactly on numeric content. -/
def floatOfCell : Cell → Option ℚ
  | Cell.num q => some q
  | Cell.str _ => none

/-- ASCII case folding of one character, as Python `str.lower` acts on the
ASCII range. -/
def pyLowerChar (c : Char) : Char :=
  if 'A' ≤ c ∧ c ≤ 'Z' then Char.ofNat (c.toNat + 32) else c

/-- Python `s.lower()` (ASCII model). -/
def pyLower (s : String) : String := String.mk (s.data.map pyLowerChar)

/-- Python `s.strip()`: drop whitespace from both ends (ASCII model). -/
def pyStrip (s : String) : String :=
  String.mk (((s.data.dropWhile Char.isWhitespace).reverse.dropWhile
    Char.isWhitespace).reverse)

section DictDefs

variable {κ α : Type} [DecidableEq κ]

/-- Python `d.get(k)` / `d[k]` on an insertion-ordered dict. -/
def dictGet (d : List (κ × α)) (k : κ) : Option α :=
  match d with
  | [] => none
  | (k', v) :: t => if k' = k then some v else dictGet t k

/-- Python `d[k] = v`: update in place when the key exists (keeping its
position and the originally inserted key), append otherwise. -/
def dictSet (d : List (κ × α)) (k : κ) (v : α) : List (κ × α) :=
  match d with
  | [] => [(k, v)]
  | (k', v') :: t => if k' = k then (k', v) :: t else (k', v') :: dictSet t k v

end DictDefs

/-! ### ColumnCodec: `get_column_letter` (fantasy_playoffs_calculator.py lines 10-16)

```python
def get_column_letter(index):
    result = ""
    while index >= 0:
        result = ascii_uppercase[index % 26] + result
        index = index // 26 - 1
    return result
```
-/

/-- The constant `string.ascii_uppercase`. -/
def ascii_uppercase : List Char :=
  ['A', 'B', 'C', 'D', 'E', 'F', 'G', 'H', 'I', 'J', 'K', 'L', 'M',
   'N', 'O', 'P', 'Q', 'R', 'S', 'T', 'U', 'V', 'W', 'X', 'Y', 'Z']

/-- One character of `ascii_uppercase` as a string; the index is always the
result of `% 26`, hence in range (the default is never used). -/
def letterStr (n : Nat) : String :=
  String.mk [ascii_uppercase.getD n 'A']

/-- The loop of `get_column_letter`, restricted to the non-negative indices
it actually visits.  One Python iteration prepends `ascii_uppercase[n % 26]`
and continues with `n // 26 - 1`; the loop exits once that becomes negative,
i.e. exactly when `n < 26`.  `fuel` only bounds the iteration count
structurally; `n + 1` units are always enough since the index shrinks by a
factor of at least 26 each step. -/
def colLoop : Nat → Nat → String
  | 0, _ => ""
  | fuel + 1, n =>
    if n < 26 then letterStr n
    else colLoop fuel (n / 26 - 1) ++ letterStr (n % 26)

/-- `get_column_letter` on a non-negative index. -/
def colNat (n : Nat) : String := colLoop (n + 1) n

/-- `get_column_letter(index)` for an arbitrary Python integer: the `while
index >= 0` guard makes a negative argument return `""` without iterating. -/
def get_column_letter (index : Int) : String :=
  if index < 0 then "" else colNat index.toNat

/-- Inverse of the bijective base-26 encoding (used only to establish
injectivity): the value of a label, minus one. -/
def labelToIndex (s : String) : Nat :=
  (s.data.foldl (fun a c => a * 26 + (c.toNat - 64)) 0) - 1

/-- The sequence A, B, ..., Z, AA, AB, ..., ZZ. -/
def allLabels : List String :=
  (ascii_uppercase.map fun c => String.mk [c]) ++
    (ascii_uppercase.flatMap fun c => ascii_uppercase.map fun d => String.mk [c, d])

/-! ### PlayerDirectory: `create_player_name_map` (lines 51-70)

```python
for player_id, player_info in players.items():
    if player_info:
        position = player_info.get('position')
        if position in offensive_positions:
            full_name = f"{player_info.get('first_name', '')} {player_info.get('last_name', '')}".strip().lower()
            if full_name:
                name_to_id[full_name] = player_id
```
-/

/-- A raw player record from the stats provider.  `none` fields model keys
that are absent from the JSON object (`.get` then yields the default). -/
structure PlayerInfo where
  first_name : Option String
  last_name : Option String
  position : Option String
deriving DecidableEq, Repr

/-- The set `offensive_positions` (membership is all that is used). -/
def offensive_positions : List String := ["QB", "RB", "WR", "TE", "K", "FB"]

/-- The normalized full name of a record:
`f"{first} {last}".strip().lower()`. -/
def fullNameOf (info : PlayerInfo) : String :=
  pyLower (pyStrip ((info.first_name.getD "") ++ " " ++ (info.last_name.getD "")))

/-- One step of the `create_player_name_map` loop.  A `none` record models a
falsy `player_info` (null in the JSON), which is skipped. -/
def nameMapStep (d : List (String × String)) (p : String × Option PlayerInfo) :
    List (String × String) :=
  match p.2 with
  | none => d
  | some info =>
    match info.position with
    | none => d
    | some pos =>
      if pos ∈ offensive_positions then
        if fullNameOf info ≠ "" then dictSet d (fullNameOf info) p.1 else d
      else d

/-- `create_player_name_map`: fold the loop over the player records in
iteration order. -/
def create_player_name_map (players : List (String × Option PlayerInfo)) :
    List (String × String) :=
  players.foldl nameMapStep []

/-- The `(normalized name, id)` pair a record contributes to the map, if
any: the record must be truthy, have an eligible position and a non-empty
normalized name. -/
def eligPair (p : String × Option PlayerInfo) : Option (String × String) :=
  match p.2 with
  | none => none
  | some info =>
    match info.position with
    | none => none
    | some pos =>
      if pos ∈ offensive_positions then
        if fullNameOf info ≠ "" then some (fullNameOf info, p.1) else none
      else none

/-- The id of the last record (in input order) whose normalized eligible
name is `name`. -/
def lastIdFor (players : List (String × Option PlayerInfo)) (name : String) :
    Option String :=
  (((players.filterMap eligPair).filter fun e => e.1 = name).getLast?).map Prod.snd

/-! ### ScoreResolver: `get_weekly_stats_for_player` (lines 91-114)

```python
player_id = self.player_map.get(player_name.lower())
if not player_id:
    print(f"WARNING: Could not find player ID for {player_name}")
    return 0.0
stats = self.get_player_stats(week)
player_stats = stats.get(player_id, {})
if 'pts_ppr' in player_stats:
    return float(player_stats['pts_ppr'])
elif 'fantasy_points_ppr' in player_stats:
    return float(player_stats['fantasy_points_ppr'])
elif 'fantasy_points' in player_stats:
    return float(player_stats['fantasy_points'])
print(f"Available stat keys: {list(player_stats.keys())}")
return 0.0
```
-/

/-- The diagnostics the resolver can emit (the two WARNING prints). -/
inductive Diag where
  | playerNotFound : String → Diag
  | noScoringField : List String → Diag
deriving DecidableEq, Repr

/-- The directory lookup on line 93: lowercases (without trimming) and
consults the map. -/
def lookupPlayer (player_map : List (String × String)) (name : String) :
    Option String :=
  dictGet player_map (pyLower name)

/-- The first scoring field present, probed in the strict priority order
`pts_ppr`, `fantasy_points_ppr`, `fantasy_points`. -/
def firstField (rec : List (String × ℚ)) : Option ℚ :=
  match dictGet rec "pts_ppr" with
  | some v => some v
  | none =>
    match dictGet rec "fantasy_points_ppr" with
    | some v => some v
    | none => dictGet rec "fantasy_points"

/-- `get_weekly_stats_for_player`, with the week's stats table passed in
place of the network fetch; returns the resolved points together with the
diagnostics emitted.  `if not player_id` is Python truthiness: both a
missing key and an empty-string id take the not-found branch. -/
def get_weekly_stats_for_player (player_map : List (String × String))
    (stats : List (String × List (String × ℚ))) (player_name : String) :
    ℚ × List Diag :=
  match lookupPlayer player_map player_name with
  | none => (0, [Diag.playerNotFound player_name])
  | some pid =>
    if pid = "" then (0, [Diag.playerNotFound player_name])
    else
      let player_stats := (dictGet stats pid).getD []
      match firstField player_stats with
      | some v => (v, [])
      | none => (0, [Diag.noScoringField (player_stats.map Prod.fst)])

/-- A one-player directory built from the source name "John Smith"
(eligible position), used by the lookup claims. -/
def johnDir : List (String × String) :=
  create_player_name_map [("id1", some ⟨some "John", some "Smith", some "QB"⟩)]

/-- The stat record of the field-priority example: all three scoring fields
present. -/
def recEx : List (String × ℚ) :=
  [("fantasy_points", 5), ("fantasy_points_ppr", 8), ("pts_ppr", 12)]

/-! ### RosterScorer: the grid part of `process_spreadsheet` (lines 287-349)

```python
headers = values[0][1:]
positions = [row[0] for row in values[1:] if row]
scores = {owner: {} for owner in headers}
for owner_idx, owner in enumerate(headers):
    for pos_idx, pos in enumerate(positions):
        try:
            player_name = values[pos_idx + 1][owner_idx + 1]
            points = sleeper.get_weekly_stats_for_player(player_name, week)
            scores[owner][pos] = {'player': player_name, 'points': points}
        except IndexError:
            scores[owner][pos] = {'player': 'MISSING', 'points': 0.0}
values = [['Position'] + list(scores.keys())]
for pos in positions:
    row = [pos]
    for owner in scores:
        row.append(scores[owner][pos]['points'])
    values.append(row)
total_row = ['TOTAL']
for owner in scores:
    total = sum(scores[owner][pos]['points'] for pos in positions)
    total_row.append(total)
values.append(total_row)
```

The resolver is abstracted as a total function `f : Cell → ℚ` from the
roster cell to the points it resolves to (the program passes the cell
content to `get_weekly_stats_for_player`).
-/

/-- The owner header `values[0][1:]`. -/
def headersOf (values : List (List Cell)) : List Cell :=
  (values.headD []).tail

/-- The position column `[row[0] for row in values[1:] if row]`. -/
def positionsOf (values : List (List Cell)) : List Cell :=
  (values.tail.filter fun r => !r.isEmpty).map fun r => r.headD (Cell.str "")

/-- The roster cell consulted for position row `pIdx` and owner column
`oIdx`: `values[pos_idx + 1][owner_idx + 1]`; `none` models the
`IndexError` for a too-short row. -/
def cellAt (values : List (List Cell)) (pIdx oIdx : Nat) : Option Cell :=
  ((values.drop (pIdx + 1)).headD [])[oIdx + 1]?

/-- The recorded `(player, points)` entry for one roster cell. -/
def entryFor (f : Cell → ℚ) (values : List (List Cell)) (pIdx oIdx : Nat) :
    Cell × ℚ :=
  match cellAt values pIdx oIdx with
  | some c => (c, f c)
  | none => (Cell.str "MISSING", 0)

/-- The inner loop over `enumerate(positions)` for one owner column,
updating that owner's sub-dict. -/
def posLoop (f : Cell → ℚ) (values : List (List Cell)) (oIdx : Nat) :
    List Cell → Nat → List (Cell × (Cell × ℚ)) → List (Cell × (Cell × ℚ))
  | [], _, d => d
  | pos :: rest, pIdx, d =>
    posLoop f values oIdx rest (pIdx + 1)
      (dictSet d pos (entryFor f values pIdx oIdx))

/-- The outer loop over `enumerate(headers)`.  Each owner's sub-dict is read
from `scores` (it is present: the comprehension inserted every header) and
written back updated. -/
def ownerLoopR (f : Cell → ℚ) (values : List (List Cell)) (positions : List Cell) :
    List Cell → Nat → List (Cell × List (Cell × (Cell × ℚ))) →
      List (Cell × List (Cell × (Cell × ℚ)))
  | [], _, sc => sc
  | o :: rest, oIdx, sc =>
    ownerLoopR f values positions rest (oIdx + 1)
      (dictSet sc o (posLoop f values oIdx positions 0 ((dictGet sc o).getD [])))

/-- The fully populated `scores` dict of `process_spreadsheet`. -/
def scoresOf (f : Cell → ℚ) (values : List (List Cell)) :
    List (Cell × List (Cell × (Cell × ℚ))) :=
  ownerLoopR f values (positionsOf values) (headersOf values) 0
    ((headersOf values).foldl (fun d o => dictSet d o []) [])

/-- `scores[owner][pos]['points']`; the keys are always present when read
(every `(owner, pos)` pair was assigned by the loops), so the default is
never used. -/
def pointsAt (sub : List (Cell × (Cell × ℚ))) (pos : Cell) : ℚ :=
  ((dictGet sub pos).getD (Cell.str "MISSING", 0)).2

/-- The output grid written to the round's score sheet: header row, one row
per position, and the synthesized TOTAL row last.  `none` models the early
`return` on an empty spreadsheet (`if not values`). -/
def process_grid (f : Cell → ℚ) (values : List (List Cell)) :
    Option (List (List Cell)) :=
  if values.isEmpty then none
  else
    some ((Cell.str "Position" :: (scoresOf f values).map Prod.fst) ::
      ((positionsOf values).map fun pos =>
        pos :: (scoresOf f values).map fun p => Cell.num (pointsAt p.2 pos)) ++
      [Cell.str "TOTAL" :: (scoresOf f values).map fun p =>
        Cell.num (((positionsOf values).map fun pos => pointsAt p.2 pos).sum)])

/-- The numeric value of row cell `j`, with absent or non-numeric cells
reading as 0 (used to state column sums over the output grid). -/
def numAt (r : List Cell) (j : Nat) : ℚ :=
  match r[j]? with
  | some (Cell.num q) => q
  | _ => 0

/-- A small roster grid: owners A and B, a full QB row and the spec's short
`["RB"]` row. -/
def exGrid : List (List Cell) :=
  [[Cell.str "Position", Cell.str "A", Cell.str "B"],
   [Cell.str "QB", Cell.str "jm", Cell.str "pm"],
   [Cell.str "RB"]]

/-- A resolver stub giving every present player 7 points. -/
def exConst7 : Cell → ℚ := fun _ => 7

/-- The scores grid the program writes for `exGrid` under `exConst7`. -/
def exOut : List (List Cell) :=
  [[Cell.str "Position", Cell.str "A", Cell.str "B"],
   [Cell.str "QB", Cell.num 7, Cell.num 7],
   [Cell.str "RB", Cell.num 0, Cell.num 0],
   [Cell.str "TOTAL", Cell.num 7, Cell.num 7]]

/-! ### TotalsAccumulator: `update_totals_sheet` (lines 126-256)

```python
totals = {}
weekly_scores = {}
for week_num, sheet_title in week_sheets:
    values = ...  # the week's grid
    if not values:
        continue
    owners = values[0][1:]
    if not totals:
        totals = {owner: 0.0 for owner in owners}
        weekly_scores = {owner: [] for owner in owners}
    total_row = values[-1][1:]
    for owner_idx, owner in enumerate(owners):
        try:
            week_total = float(total_row[owner_idx])
            totals[owner] += week_total
            weekly_scores[owner].append(week_total)
        except (ValueError, IndexError):
            print(f"Warning: Could not process total for {owner} in week {week_num}")
            weekly_scores[owner].append(0.0)
values.append(['TOTAL'] + list(totals.values()))
sorted_totals = sorted(totals.items(), key=lambda x: x[1], reverse=True)
```
-/

/-- The accumulator state: the two dicts plus the warnings emitted
(each `(owner, week)`). -/
structure TotState where
  totals : List (Cell × ℚ)
  weekly : List (Cell × List ℚ)
  diags : List (Cell × Nat)
deriving DecidableEq, Repr

/-- The inner loop over `enumerate(owners)` for one week's TOTAL row.  A
cell that is missing (`IndexError`) or non-numeric (`ValueError`) takes the
warning branch.  A `KeyError` on either dict (an owner absent from the
dicts, impossible when all sheets share one header) is uncaught in Python
and aborts the whole update; it is modelled by `none`. -/
def ownerLoopT (week : Nat) (row : List Cell) :
    List Cell → Nat → TotState → Option TotState
  | [], _, st => some st
  | o :: rest, idx, st =>
    match (row[idx]?).bind floatOfCell with
    | some v =>
      match dictGet st.totals o, dictGet st.weekly o with
      | some t, some w =>
        ownerLoopT week row rest (idx + 1)
          ⟨dictSet st.totals o (t + v), dictSet st.weekly o (w ++ [v]), st.diags⟩
      | _, _ => none
    | none =>
      match dictGet st.weekly o with
      | some w =>
        ownerLoopT week row rest (idx + 1)
          ⟨st.totals, dictSet st.weekly o (w ++ [0]), st.diags ++ [(o, week)]⟩
      | none => none

/-- Processing of one week's sheet: an empty grid is skipped (`continue`);
the dicts are initialized from the first non-empty sheet's header
(`if not totals`); then the TOTAL row (last row, label dropped) is folded
in. -/
def processSheetT (st : TotState) (week : Nat) (rows : List (List Cell)) :
    Option TotState :=
  match rows with
  | [] => some st
  | hdr :: _ =>
    let owners := hdr.tail
    let st :=
      if st.totals.isEmpty then
        { st with
          totals := owners.foldl (fun d o => dictSet d o (0 : ℚ)) []
          weekly := owners.foldl (fun d o => dictSet d o ([] : List ℚ)) [] }
      else st
    ownerLoopT week ((rows.getLast?.getD []).tail) owners 0 st

/-- The whole accumulation pass over the (already week-sorted) sequence of
weekly sheets, each given as `(week number, grid)`. -/
def update_totals_core (sheets : List (Nat × List (List Cell))) :
    Option TotState :=
  sheets.foldlM (fun st s => processSheetT st s.1 s.2) ⟨[], [], []⟩

/-- The final row `['TOTAL'] + list(totals.values())`. -/
def finalTotalRow (st : TotState) : List Cell :=
  Cell.str "TOTAL" :: st.totals.map fun p => Cell.num p.2

/-- The standings comparator: `a` may precede `b` when its cumulative total
is at least `b`'s. -/
def rankLE (a b : Cell × ℚ) : Prop := b.2 ≤ a.2

instance : DecidableRel rankLE := fun a b => inferInstanceAs (Decidable (b.2 ≤ a.2))

instance : IsTotal (Cell × ℚ) rankLE := ⟨fun a b => le_total b.2 a.2⟩

instance : IsTrans (Cell × ℚ) rankLE := ⟨fun _ _ _ h h' => le_trans h' h⟩

/-- `sorted(totals.items(), key=lambda x: x[1], reverse=True)`: the stable
descending sort of the owner/total pairs.  Python's `sorted` is the unique
stable sort; insertion sort with `rankLE` computes exactly that
permutation (equal totals keep their insertion order). -/
def standings (st : TotState) : List (Cell × ℚ) :=
  List.insertionSort rankLE st.totals

/-- The last row of a week's grid with the `TOTAL` label dropped:
`values[-1][1:]`. -/
def lastTail (rows : List (List Cell)) : List Cell :=
  (rows.getLast?.getD []).tail

/-- What one TOTAL-row cell contributes to its owner's running total: the
parsed value, or 0 when the cell is missing or non-numeric. -/
def contrib (row : List Cell) (i : Nat) : ℚ :=
  ((row[i]?).bind floatOfCell).getD 0

/-- Whether one TOTAL-row cell parses. -/
def parseOk (row : List Cell) (i : Nat) : Bool :=
  ((row[i]?).bind floatOfCell).isSome

/-- Pointwise effect of one week on the running totals. -/
def addContribs (row : List Cell) : Nat → List ℚ → List ℚ
  | _, [] => []
  | idx, t :: ts => (t + contrib row idx) :: addContribs row (idx + 1) ts

/-- Pointwise effect of one week on the per-owner weekly score lists. -/
def appContribs (row : List Cell) : Nat → List (List ℚ) → List (List ℚ)
  | _, [] => []
  | idx, w :: ws => (w ++ [contrib row idx]) :: appContribs row (idx + 1) ws

/-- The warnings one week emits: one per owner whose cell fails to parse. -/
def failDiags (week : Nat) (row : List Cell) : Nat → List Cell → List (Cell × Nat)
  | _, [] => []
  | idx, o :: os =>
    if parseOk row idx then failDiags week row (idx + 1) os
    else (o, week) :: failDiags week row (idx + 1) os

/-- Iterated `addContribs` over a run of sheets. -/
def foldTs : List (Nat × List (List Cell)) → List ℚ → List ℚ
  | [], ts => ts
  | s :: ss, ts => foldTs ss (addContribs (lastTail s.2) 0 ts)

/-- Iterated `appContribs` over a run of sheets. -/
def foldWs : List (Nat × List (List Cell)) → List (List ℚ) → List (List ℚ)
  | [], ws => ws
  | s :: ss, ws => foldWs ss (appContribs (lastTail s.2) 0 ws)

/-- All warnings over a run of sheets, in emission order. -/
def allFails (owners : List Cell) : List (Nat × List (List Cell)) → List (Cell × Nat)
  | [] => []
  | s :: ss => failDiags s.1 (lastTail s.2) 0 owners ++ allFails owners ss

/-- Week-1 sheet of the accumulator example: TOTAL row `[10, 20]` for
owners A and B. -/
def exSheet1 : Nat × List (List Cell) :=
  (1, [[Cell.str "Position", Cell.str "A", Cell.str "B"],
       [Cell.str "TOTAL", Cell.num 10, Cell.num 20]])

/-- Week-2 sheet of the accumulator example: TOTAL row `[5, 25]`. -/
def exSheet2 : Nat × List (List Cell) :=
  (2, [[Cell.str "Position", Cell.str "A", Cell.str "B"],
       [Cell.str "TOTAL", Cell.num 5, Cell.num 25]])

/-- Week-2 sheet with a malformed (non-numeric) TOTAL cell for owner A. -/
def exSheet2bad : Nat × List (List Cell) :=
  (2, [[Cell.str "Position", Cell.str "A", Cell.str "B"],
       [Cell.str "TOTAL", Cell.str "oops", Cell.num 25]])

/-! ## Association-list dictionary lemmas -/

section DictLemmas

variable {κ α : Type} [DecidableEq κ]

theorem dictGet_dictSet (d : List (κ × α)) (k k' : κ) (v : α) :
    dictGet (dictSet d k v) k' = if k = k' then some v else dictGet d k' := by
  induction d with
  | nil => by_cases h : k = k' <;> simp [dictGet, dictSet, h]
  | cons p t ih =>
    obtain ⟨k₀, v₀⟩ := p
    by_cases h₀ : k₀ = k
    · subst h₀
      by_cases h : k₀ = k' <;> simp [dictGet, dictSet, h]
    · by_cases h : k₀ = k'
      · subst h
        have hne : ¬ k = k₀ := fun hh => h₀ hh.symm
        simp [dictGet, dictSet, h₀, hne]
      · simp [dictGet, dictSet, h₀, h, ih]

theorem dictGet_dictSet_self (d : List (κ × α)) (k : κ) (v : α) :
    dictGet (dictSet d k v) k = some v := by
  simp [dictGet_dictSet]

theorem dictGet_dictSet_ne (d : List (κ × α)) (k k' : κ) (v : α) (h : k ≠ k') :
    dictGet (dictSet d k v) k' = dictGet d k' := by
  simp [dictGet_dictSet, h]

theorem dictSet_keys (d : List (κ × α)) (k : κ) (v : α) :
    (dictSet d k v).map Prod.fst =
      if k ∈ d.map Prod.fst then d.map Prod.fst else d.map Prod.fst ++ [k] := by
  induction d with
  | nil => simp [dictSet]
  | cons p t ih =>
    obtain ⟨k₀, v₀⟩ := p
    by_cases h₀ : k₀ = k
    · subst h₀
      simp [dictSet]
    · have hne : ¬ k = k₀ := fun hh => h₀ hh.symm
      by_cases hm : k ∈ t.map Prod.fst <;>
        simp [dictSet, h₀, ih, hm, hne]

theorem dictSet_keys_nodup (d : List (κ × α)) (k : κ) (v : α)
    (h : (d.map Prod.fst).Nodup) : ((dictSet d k v).map Prod.fst).Nodup := by
  rw [dictSet_keys]
  by_cases hm : k ∈ d.map Prod.fst
  · simpa [hm] using h
  · simpa [hm, List.nodup_append] using h

theorem dictGet_append_left (d d' : List (κ × α)) (k : κ)
    (h : k ∉ d.map Prod.fst) :
    dictGet (d ++ d') k = dictGet d' k := by
  induction d with
  | nil => simp
  | cons p t ih =>
    obtain ⟨k₀, v₀⟩ := p
    have hne : k₀ ≠ k := by
      intro hh
      exact h (by simp [hh])
    simp only [List.cons_append, dictGet, hne, if_false]
    exact ih fun hm => h (by simp [hm])

theorem dictSet_append_left (d d' : List (κ × α)) (k : κ) (v : α)
    (h : k ∉ d.map Prod.fst) :
    dictSet (d ++ d') k v = d ++ dictSet d' k v := by
  induction d with
  | nil => simp
  | cons p t ih =>
    obtain ⟨k₀, v₀⟩ := p
    have hne : k₀ ≠ k := by
      intro hh
      exact h (by simp [hh])
    simp only [List.cons_append, dictSet, hne, if_false, List.cons.injEq, true_and]
    exact ih fun hm => h (by simp [hm])

theorem dictGet_cons_self (k : κ) (v : α) (t : List (κ × α)) :
    dictGet ((k, v) :: t) k = some v := by
  simp [dictGet]

theorem dictSet_cons_self (k : κ) (v v' : α) (t : List (κ × α)) :
    dictSet ((k, v) :: t) k v' = (k, v') :: t := by
  simp [dictSet]

/-- Folding plain insertions of a constant over distinct fresh keys builds
the corresponding association list. -/
theorem foldl_dictSet_const {β : Type} (c : β) :
    ∀ (os : List κ) (d : List (κ × β)), os.Nodup →
      (∀ o ∈ os, o ∉ d.map Prod.fst) →
      os.foldl (fun d o => dictSet d o c) d = d ++ os.map fun o => (o, c) := by
  intro os
  induction os with
  | nil => simp
  | cons o rest ih =>
    intro d hnd hfresh
    have ho : o ∉ d.map Prod.fst := hfresh o (by simp)
    have hset : dictSet d o c = d ++ [(o, c)] := by
      have := dictSet_append_left d [] o c ho
      simpa using this
    simp only [List.foldl_cons, hset]
    rw [ih (d ++ [(o, c)]) (List.Nodup.of_cons hnd)]
    · simp
    · intro o' ho'
      simp only [List.map_append, List.mem_append, List.map_cons, List.map_nil]
      rintro (h | h)
      · exact hfresh o' (by simp [ho']) h
      · simp only [List.mem_singleton] at h
        subst h
        exact (List.nodup_cons.mp hnd).1 ho'

end DictLemmas

/-! ## ColumnCodec lemmas and claims -/

set_option maxRecDepth 10000 in
theorem labelToIndex_colNat (n : Nat) (h : n < 702) : labelToIndex (colNat n) = n := by
  have hall : ((List.range 702).all fun n => decide (labelToIndex (colNat n) = n)) = true := by
    decide
  rw [List.all_eq_true] at hall
  exact of_decide_eq_true (hall n (List.mem_range.mpr h))

theorem get_column_letter_natCast (n : Nat) : get_column_letter (n : Int) = colNat n := by
  rw [get_column_letter, if_neg (not_lt.mpr (Int.natCast_nonneg n)), Int.toNat_natCast]

set_option maxRecDepth 10000 in
/-- C1: `get_column_letter` maps 0..701 onto the sequence A, ..., Z, AA,
..., ZZ in order and injectively, with `0 ↦ "A"`, `25 ↦ "Z"`, `26 ↦ "AA"`,
`701 ↦ "ZZ"`.  (The algorithm itself — prepend `index % 26`, continue with
`index // 26 - 1` until negative — is the definition `get_column_letter`
verified above against lines 10-16 of the source.) -/
theorem C1_column_codec_bijection :
    ((List.range 702).map fun n => get_column_letter (n : Int)) = allLabels ∧
    (∀ m n : Nat, m < 702 → n < 702 →
      get_column_letter (m : Int) = get_column_letter (n : Int) → m = n) ∧
    get_column_letter 0 = "A" ∧ get_column_letter 25 = "Z" ∧
    get_column_letter 26 = "AA" ∧ get_column_letter 701 = "ZZ" := by
  refine ⟨by decide, ?_, by decide, by decide, by decide, by decide⟩
  intro m n hm hn heq
  rw [get_column_letter_natCast, get_column_letter_natCast] at heq
  have := labelToIndex_colNat m hm
  rw [heq, labelToIndex_colNat n hn] at this
  exact this.symm

/-- Witness for C1 at concrete inputs. -/
theorem C1_column_codec_bijection_witness : (0 : Nat) = 0 :=
  C1_column_codec_bijection.2.1 0 0 (by decide) (by decide) rfl

/-- C10: `get_column_letter` is a total function (it is defined by
structurally terminating recursion for every integer input), and on every
negative input the `while index >= 0` guard fails at once, so the result is
the empty string. -/
theorem C10_negative_index_empty : ∀ i : Int, i < 0 → get_column_letter i = "" :=
  fun _ h => if_pos h

/-- Witness for C10 at a concrete negative input. -/
theorem C10_negative_index_empty_witness : get_column_letter (-3) = "" :=
  C10_negative_index_empty (-3) (by decide)

/-! ## PlayerDirectory lemmas and claims -/

theorem getLast?_or {α : Type} (a : α) (l : List α) :
    (a :: l).getLast? = l.getLast?.or (some a) := by
  induction l generalizing a with
  | nil => simp
  | cons b t ih =>
    rw [List.getLast?_cons_cons, ih b]
    cases t.getLast? <;> simp

theorem nameMapStep_eq (d : List (String × String)) (p : String × Option PlayerInfo) :
    nameMapStep d p = (eligPair p).elim d fun e => dictSet d e.1 e.2 := by
  rcases p with ⟨pid, i⟩
  cases i with
  | none => rfl
  | some info =>
    cases hp : info.position with
    | none => simp [nameMapStep, eligPair, hp]
    | some pos =>
      by_cases hm : pos ∈ offensive_positions
      · by_cases hn : fullNameOf info = "" <;> simp [nameMapStep, eligPair, hp, hm, hn]
      · simp [nameMapStep, eligPair, hp, hm]

theorem lastIdFor_cons (p : String × Option PlayerInfo)
    (ps : List (String × Option PlayerInfo)) (name : String) :
    lastIdFor (p :: ps) name =
      (lastIdFor ps name).or
        ((eligPair p).bind fun e => if e.1 = name then some e.2 else none) := by
  cases he : eligPair p with
  | none => simp [lastIdFor, List.filterMap_cons, he]
  | some e =>
    by_cases h1 : e.1 = name
    · simp only [lastIdFor, List.filterMap_cons, he, Option.bind_some, h1, if_true,
        List.filter_cons, decide_eq_true_eq, if_pos h1, getLast?_or]
      cases (((ps.filterMap eligPair).filter fun e => e.1 = name).getLast?) <;> simp [h1]
    · simp [lastIdFor, List.filterMap_cons, he, List.filter_cons, h1]

theorem nameMap_get_or (ps : List (String × Option PlayerInfo)) :
    ∀ (d : List (String × String)) (name : String),
      dictGet (ps.foldl nameMapStep d) name = (lastIdFor ps name).or (dictGet d name) := by
  induction ps with
  | nil =>
    intro d name
    simp [lastIdFor]
  | cons p ps ih =>
    intro d name
    rw [List.foldl_cons, ih, lastIdFor_cons, nameMapStep_eq]
    cases he : eligPair p with
    | none => simp
    | some e =>
      by_cases h1 : e.1 = name <;>
        cases hl : lastIdFor ps name <;>
          simp [dictGet_dictSet, h1]

theorem nameMap_keys_nodup_aux (ps : List (String × Option PlayerInfo)) :
    ∀ d : List (String × String), (d.map Prod.fst).Nodup →
      ((ps.foldl nameMapStep d).map Prod.fst).Nodup := by
  induction ps with
  | nil => exact fun d h => h
  | cons p ps ih =>
    intro d h
    rw [List.foldl_cons]
    apply ih
    rw [nameMapStep_eq]
    cases he : eligPair p with
    | none => exact h
    | some e => exact dictSet_keys_nodup d e.1 e.2 h

/-- C9: the built directory resolves every normalized name to the id of the
last input record that is eligible (offensive position, non-empty normalized
name) and bears that name — last-write-wins, with no entry for names without
an eligible record; its keys are free of duplicates (exactly one entry per
distinct normalized name); and the concrete DEF/QB example keeps only
`"c d"`. -/
theorem C9_name_map_last_write_wins :
    (∀ (players : List (String × Option PlayerInfo)) (name : String),
      dictGet (create_player_name_map players) name = lastIdFor players name) ∧
    (∀ players, ((create_player_name_map players).map Prod.fst).Nodup) ∧
    create_player_name_map
      [("1", some ⟨some "A", some "B", some "DEF"⟩),
       ("2", some ⟨some "C", some "D", some "QB"⟩)] = [("c d", "2")] := by
  refine ⟨?_, ?_, by decide⟩
  · intro players name
    rw [create_player_name_map, nameMap_get_or]
    simp [dictGet]
  · intro players
    exact nameMap_keys_nodup_aux players [] (by simp)

/-- C5 counterexample: with the directory built from source name
"John Smith", the claim says `lookup(" John Smith ")` and
`lookup("john smith")` both resolve to the stored id; in the code the
lookup (line 93) only lowercases — it does not strip — so the
whitespace-padded query misses while the lowercase one hits. -/
theorem C5_whitespace_lookup_counterexample :
    lookupPlayer johnDir "john smith" = some "id1" ∧
    lookupPlayer johnDir " John Smith " = none := by decide

/-- C5 amended: lookup is case-insensitive — any two queries equal after
lowercasing resolve identically, and any query equal to the stored
(build-side trimmed) name up to letter case resolves to the stored id — but
it is not whitespace-insensitive: a query with surrounding whitespace does
not resolve. -/
theorem C5_lookup_case_insensitive :
    (∀ (m : List (String × String)) (s t : String), pyLower s = pyLower t →
      lookupPlayer m s = lookupPlayer m t) ∧
    lookupPlayer johnDir "JOHN smith" = some "id1" ∧
    lookupPlayer johnDir "John Smith" = some "id1" ∧
    lookupPlayer johnDir " John Smith " = none := by
  refine ⟨?_, by decide, by decide, by decide⟩
  intro m s t h
  rw [lookupPlayer, lookupPlayer, h]

/-- Witness for C5's amended case-insensitivity at concrete inputs. -/
theorem C5_lookup_case_insensitive_witness :
    lookupPlayer johnDir "JOHN SMITH" = lookupPlayer johnDir "john smith" :=
  C5_lookup_case_insensitive.1 johnDir "JOHN SMITH" "john smith" (by decide)

/-! ## ScoreResolver claims -/

theorem get_weekly_found (m : List (String × String))
    (stats : List (String × List (String × ℚ))) (name pid : String)
    (hl : lookupPlayer m name = some pid) (hpid : pid ≠ "") :
    get_weekly_stats_for_player m stats name =
      (match firstField ((dictGet stats pid).getD []) with
       | some v => (v, [])
       | none => (0, [Diag.noScoringField (((dictGet stats pid).getD []).map Prod.fst)])) := by
  rw [get_weekly_stats_for_player, hl]
  simp only [hpid, if_false]

/-- C4: the resolver probes `pts_ppr`, then `fantasy_points_ppr`, then
`fantasy_points` in that strict order and returns the first present value;
on the record with `fantasy_points: 5`, `fantasy_points_ppr: 8`,
`pts_ppr: 12` it returns 12.0. -/
theorem C4_resolver_field_priority :
    (∀ (m : List (String × String)) (stats : List (String × List (String × ℚ)))
        (name pid : String) (v : ℚ),
      lookupPlayer m name = some pid → pid ≠ "" →
      ((dictGet ((dictGet stats pid).getD []) "pts_ppr" = some v →
        get_weekly_stats_for_player m stats name = (v, [])) ∧
       (dictGet ((dictGet stats pid).getD []) "pts_ppr" = none →
        dictGet ((dictGet stats pid).getD []) "fantasy_points_ppr" = some v →
        get_weekly_stats_for_player m stats name = (v, [])) ∧
       (dictGet ((dictGet stats pid).getD []) "pts_ppr" = none →
        dictGet ((dictGet stats pid).getD []) "fantasy_points_ppr" = none →
        dictGet ((dictGet stats pid).getD []) "fantasy_points" = some v →
        get_weekly_stats_for_player m stats name = (v, [])))) ∧
    get_weekly_stats_for_player [("john smith", "123")] [("123", recEx)]
      "John Smith" = (12, []) := by
  refine ⟨?_, by decide⟩
  intro m stats name pid v hl hpid
  rw [get_weekly_found m stats name pid hl hpid]
  refine ⟨fun h1 => ?_, fun h1 h2 => ?_, fun h1 h2 h3 => ?_⟩
  · simp [firstField, h1]
  · simp [firstField, h1, h2]
  · simp [firstField, h1, h2, h3]

/-- Witness for C4's general part at a concrete instance. -/
theorem C4_resolver_field_priority_witness :
    get_weekly_stats_for_player [("john smith", "123")] [("123", recEx)]
      "john smith" = (12, []) :=
  (C4_resolver_field_priority.1 [("john smith", "123")] [("123", recEx)]
      "john smith" "123" 12 (by decide) (by decide)).1 (by decide)

/-- C8: the resolver is total (it is a Lean function, so it never raises)
and returns 0.0 with a diagnostic in exactly the two recoverable failure
cases: a falsy lookup result (missing or empty id) yields the
player-not-found diagnostic, and a record (absent records read as empty)
with none of the recognized fields yields the no-scoring-field diagnostic
carrying the field names actually present; when a field is found no
diagnostic is emitted. -/
theorem C8_resolver_failure_exactness :
    ∀ (m : List (String × String)) (stats : List (String × List (String × ℚ)))
      (name : String),
      ((lookupPlayer m name).getD "" = "" →
        get_weekly_stats_for_player m stats name = (0, [Diag.playerNotFound name])) ∧
      (∀ pid, lookupPlayer m name = some pid → pid ≠ "" →
        firstField ((dictGet stats pid).getD []) = none →
        get_weekly_stats_for_player m stats name =
          (0, [Diag.noScoringField (((dictGet stats pid).getD []).map Prod.fst)])) ∧
      (∀ pid v, lookupPlayer m name = some pid → pid ≠ "" →
        firstField ((dictGet stats pid).getD []) = some v →
        get_weekly_stats_for_player m stats name = (v, [])) := by
  intro m stats name
  refine ⟨?_, ?_, ?_⟩
  · intro h
    cases hl : lookupPlayer m name with
    | none => rw [get_weekly_stats_for_player, hl]
    | some pid =>
      rw [hl] at h
      simp only [Option.getD_some] at h
      rw [get_weekly_stats_for_player, hl]
      simp [h]
  · intro pid hl hpid hnone
    rw [get_weekly_found m stats name pid hl hpid, hnone]
  · intro pid v hl hpid hsome
    rw [get_weekly_found m stats name pid hl hpid, hsome]

/-- Witness for C8 at concrete inputs (the not-found case). -/
theorem C8_resolver_failure_exactness_witness :
    get_weekly_stats_for_player [] [] "bob" = (0, [Diag.playerNotFound "bob"]) :=
  (C8_resolver_failure_exactness [] [] "bob").1 (by decide)

/-! ## RosterScorer lemmas and claims -/

theorem dictGet_map_const {κ α : Type} [DecidableEq κ] (os : List κ) (c : α) (k : κ) :
    dictGet (os.map fun o => (o, c)) k = if k ∈ os then some c else none := by
  induction os with
  | nil => simp [dictGet]
  | cons o rest ih =>
    by_cases h : o = k
    · subst h
      simp [dictGet]
    · have : ¬ k = o := fun hh => h hh.symm
      simp [dictGet, h, ih, this]

theorem posLoop_get_notmem (f : Cell → ℚ) (values : List (List Cell)) (oIdx : Nat) :
    ∀ (ps : List Cell) (pIdx : Nat) (d : List (Cell × (Cell × ℚ))) (k : Cell),
      k ∉ ps → dictGet (posLoop f values oIdx ps pIdx d) k = dictGet d k := by
  intro ps
  induction ps with
  | nil => intro _ _ _ _; rfl
  | cons p rest ih =>
    intro pIdx d k hk
    rw [posLoop, ih _ _ k (fun h => hk (by simp [h]))]
    exact dictGet_dictSet_ne d p k _ fun h => hk (by simp [h])

theorem posLoop_get (f : Cell → ℚ) (values : List (List Cell)) (oIdx : Nat) :
    ∀ (ps : List Cell), ps.Nodup →
      ∀ (j : Nat) (p : Cell) (pIdx : Nat) (d : List (Cell × (Cell × ℚ))),
        ps[j]? = some p →
        dictGet (posLoop f values oIdx ps pIdx d) p =
          some (entryFor f values (pIdx + j) oIdx) := by
  intro ps
  induction ps with
  | nil => intro _ j _ _ _ h; simp at h
  | cons p0 rest ih =>
    intro hnd j p pIdx d hj
    cases j with
    | zero =>
      simp only [List.getElem?_cons_zero, Option.some.injEq] at hj
      subst hj
      rw [posLoop, posLoop_get_notmem f values oIdx rest (pIdx + 1) _ p0
        (List.nodup_cons.mp hnd).1]
      rw [dictGet_dictSet_self]
      simp
    | succ j' =>
      rw [List.getElem?_cons_succ] at hj
      rw [posLoop, ih (List.nodup_cons.mp hnd).2 j' p (pIdx + 1) _ hj]
      have harith : pIdx + 1 + j' = pIdx + (j' + 1) := by omega
      rw [harith]

theorem ownerLoopR_get_notmem (f : Cell → ℚ) (values : List (List Cell))
    (positions : List Cell) :
    ∀ (os : List Cell) (oIdx : Nat) (sc : List (Cell × List (Cell × (Cell × ℚ))))
      (k : Cell), k ∉ os →
      dictGet (ownerLoopR f values positions os oIdx sc) k = dictGet sc k := by
  intro os
  induction os with
  | nil => intro _ _ _ _; rfl
  | cons o rest ih =>
    intro oIdx sc k hk
    rw [ownerLoopR, ih _ _ k (fun h => hk (by simp [h]))]
    exact dictGet_dictSet_ne sc o k _ fun h => hk (by simp [h])

theorem ownerLoopR_get (f : Cell → ℚ) (values : List (List Cell))
    (positions : List Cell) :
    ∀ (os : List Cell), os.Nodup →
      ∀ (i : Nat) (o : Cell) (oIdx : Nat)
        (sc : List (Cell × List (Cell × (Cell × ℚ)))), os[i]? = some o →
        dictGet (ownerLoopR f values positions os oIdx sc) o =
          some (posLoop f values (oIdx + i) positions 0 ((dictGet sc o).getD [])) := by
  intro os
  induction os with
  | nil => intro _ i _ _ _ h; simp at h
  | cons o0 rest ih =>
    intro hnd i o oIdx sc hi
    cases i with
    | zero =>
      simp only [List.getElem?_cons_zero, Option.some.injEq] at hi
      subst hi
      rw [ownerLoopR, ownerLoopR_get_notmem f values positions rest (oIdx + 1) _ o0
        (List.nodup_cons.mp hnd).1]
      rw [dictGet_dictSet_self]
      simp
    | succ i' =>
      rw [List.getElem?_cons_succ] at hi
      rw [ownerLoopR, ih (List.nodup_cons.mp hnd).2 i' o (oIdx + 1) _ hi]
      have harith : oIdx + 1 + i' = oIdx + (i' + 1) := by omega
      rw [harith]
      have hne : o0 ≠ o := by
        intro h
        subst h
        exact (List.nodup_cons.mp hnd).1 (List.getElem?_mem hi)
      rw [dictGet_dictSet_ne sc o0 o _ hne]

theorem scoresOf_get (f : Cell → ℚ) (values : List (List Cell))
    (hh : (headersOf values).Nodup) (i : Nat) (o : Cell)
    (hi : (headersOf values)[i]? = some o) :
    dictGet (scoresOf f values) o =
      some (posLoop f values i (positionsOf values) 0 []) := by
  rw [scoresOf, ownerLoopR_get f values (positionsOf values) (headersOf values) hh i o 0 _ hi]
  rw [foldl_dictSet_const ([] : List (Cell × (Cell × ℚ))) (headersOf values) [] hh (by simp)]
  rw [List.nil_append, dictGet_map_const, if_pos (List.getElem?_mem hi)]
  simp

/-- C3: in every scores grid the program produces, the synthesized TOTAL
row is the last row, and each of its per-owner entries equals the sum of
that owner's column over all position rows of the grid (absent entries read
as 0). -/
theorem C3_total_row_is_column_sums :
    ∀ (f : Cell → ℚ) (values out : List (List Cell)),
      process_grid f values = some out →
      ∃ hdr body tvals,
        out = hdr :: body ++ [Cell.str "TOTAL" :: tvals] ∧
        out.getLast? = some (Cell.str "TOTAL" :: tvals) ∧
        ∀ i, i < tvals.length →
          tvals[i]? = some (Cell.num ((body.map fun r => numAt r (i + 1)).sum)) := by
  intro f values out h
  rw [process_grid] at h
  by_cases he : values.isEmpty
  · simp [he] at h
  simp only [he, Bool.false_eq_true, if_false, Option.some.injEq] at h
  refine ⟨_, _, _, h.symm, ?_, ?_⟩
  · rw [← h]
    exact List.getLast?_concat _
  · intro i hi
    rw [List.length_map] at hi
    rw [List.getElem?_map]
    obtain ⟨p, hp⟩ : ∃ p, (scoresOf f values)[i]? = some p :=
      ⟨_, List.getElem?_eq_getElem hi⟩
    rw [hp]
    simp only [Option.map_some']
    have hbody : ((positionsOf values).map fun pos =>
          pos :: (scoresOf f values).map fun q => Cell.num (pointsAt q.2 pos)).map
            (fun r => numAt r (i + 1)) =
        (positionsOf values).map fun pos => pointsAt p.2 pos := by
      rw [List.map_map]
      apply List.map_congr_left
      intro pos _
      simp only [Function.comp_apply, numAt, List.getElem?_cons_succ, List.getElem?_map, hp,
        Option.map_some']
    rw [hbody]

/-- Witness for C3 on a concrete roster grid with a short row. -/
theorem C3_total_row_is_column_sums_witness :
    ∃ hdr body tvals,
      exOut = hdr :: body ++ [Cell.str "TOTAL" :: tvals] ∧
      exOut.getLast? = some (Cell.str "TOTAL" :: tvals) ∧
      ∀ i, i < tvals.length →
        tvals[i]? = some (Cell.num ((body.map fun r => numAt r (i + 1)).sum)) :=
  C3_total_row_is_column_sums exConst7 exGrid exOut (by
    simp [process_grid, exGrid, exOut, exConst7, scoresOf, ownerLoopR, posLoop,
      positionsOf, headersOf, dictSet, dictGet, entryFor, cellAt, pointsAt])

/-- C6: a roster cell that is absent because its row is too short is
recorded as player "MISSING" with 0.0 points, every other cell is still
processed normally (its player and resolved points are recorded), and the
scorer never aborts: it produces a grid for every non-empty roster. -/
theorem C6_missing_cell_recorded :
    ∀ (f : Cell → ℚ) (hdr : List Cell) (rows : List (List Cell)),
      (headersOf (hdr :: rows)).Nodup → (positionsOf (hdr :: rows)).Nodup →
      (∃ out, process_grid f (hdr :: rows) = some out) ∧
      (∀ i j o p, (headersOf (hdr :: rows))[i]? = some o →
        (positionsOf (hdr :: rows))[j]? = some p →
        ((cellAt (hdr :: rows) j i = none →
          (dictGet (scoresOf f (hdr :: rows)) o).bind (fun sub => dictGet sub p) =
            some (Cell.str "MISSING", 0)) ∧
         (∀ c, cellAt (hdr :: rows) j i = some c →
          (dictGet (scoresOf f (hdr :: rows)) o).bind (fun sub => dictGet sub p) =
            some (c, f c)))) := by
  intro f hdr rows hh hp
  constructor
  · exact ⟨_, by rw [process_grid, if_neg (by simp)]⟩
  · intro i j o p hi hj
    have hsub := scoresOf_get f (hdr :: rows) hh i o hi
    have hentry := posLoop_get f (hdr :: rows) i (positionsOf (hdr :: rows)) hp j p 0 [] hj
    rw [Nat.zero_add] at hentry
    constructor
    · intro hnone
      rw [hsub, Option.some_bind, hentry, entryFor, hnone]
    · intro c hc
      rw [hsub, Option.some_bind, hentry, entryFor, hc]

/-- Witness for C6 on the spec's example: roster row `["RB"]` under owners
A and B records MISSING with 0 points. -/
theorem C6_missing_cell_recorded_witness :
    (dictGet (scoresOf exConst7 exGrid) (Cell.str "A")).bind
      (fun sub => dictGet sub (Cell.str "RB")) = some (Cell.str "MISSING", 0) :=
  ((C6_missing_cell_recorded exConst7
      [Cell.str "Position", Cell.str "A", Cell.str "B"]
      [[Cell.str "QB", Cell.str "jm", Cell.str "pm"], [Cell.str "RB"]]
      (by decide) (by decide)).2 0 1 (Cell.str "A") (Cell.str "RB")
      (by decide) (by decide)).1 (by decide)

/-! ## TotalsAccumulator lemmas -/

theorem contrib_of_parse (row : List Cell) (idx : Nat) (v : ℚ)
    (h : (row[idx]?).bind floatOfCell = some v) : contrib row idx = v := by
  rw [contrib, h, Option.getD_some]

theorem contrib_of_fail (row : List Cell) (idx : Nat)
    (h : (row[idx]?).bind floatOfCell = none) : contrib row idx = 0 := by
  rw [contrib, h, Option.getD_none]

theorem parseOk_false_contrib (row : List Cell) (idx : Nat)
    (h : parseOk row idx = false) : contrib row idx = 0 := by
  rw [parseOk] at h
  exact contrib_of_fail row idx (Option.not_isSome_iff_eq_none.mp (by rw [h]; exact
    Bool.false_ne_true))

theorem addContribs_length (row : List Cell) :
    ∀ (idx : Nat) (ts : List ℚ), (addContribs row idx ts).length = ts.length := by
  intro idx ts
  induction ts generalizing idx with
  | nil => rfl
  | cons t ts ih => simp [addContribs, ih]

theorem appContribs_length (row : List Cell) :
    ∀ (idx : Nat) (ws : List (List ℚ)), (appContribs row idx ws).length = ws.length := by
  intro idx ws
  induction ws generalizing idx with
  | nil => rfl
  | cons w ws ih => simp [appContribs, ih]

theorem ownerLoopT_spec (week : Nat) (row : List Cell) :
    ∀ (os : List Cell) (idx : Nat) (ts : List ℚ) (ws : List (List ℚ))
      (pre : List (Cell × ℚ)) (preW : List (Cell × List ℚ)) (ds : List (Cell × Nat)),
      os.Nodup →
      (∀ o ∈ os, o ∉ pre.map Prod.fst) →
      (∀ o ∈ os, o ∉ preW.map Prod.fst) →
      ts.length = os.length → ws.length = os.length →
      ownerLoopT week row os idx ⟨pre ++ os.zip ts, preW ++ os.zip ws, ds⟩ =
        some ⟨pre ++ os.zip (addContribs row idx ts),
              preW ++ os.zip (appContribs row idx ws),
              ds ++ failDiags week row idx os⟩ := by
  intro os
  induction os with
  | nil =>
    intro idx ts ws pre preW ds _ _ _ _ _
    simp [ownerLoopT, failDiags]
  | cons o os2 ih =>
    intro idx ts ws pre preW ds hnd hpre hpreW hts hws
    obtain ⟨hno, hnd2⟩ := List.nodup_cons.mp hnd
    cases ts with
    | nil => simp at hts
    | cons t ts2 =>
      cases ws with
      | nil => simp at hws
      | cons w ws2 =>
        have hts2 : ts2.length = os2.length := by simpa using hts
        have hws2 : ws2.length = os2.length := by simpa using hws
        have hpre_o : o ∉ pre.map Prod.fst := hpre o (by simp)
        have hpreW_o : o ∉ preW.map Prod.fst := hpreW o (by simp)
        have hget_t : dictGet (pre ++ (o :: os2).zip (t :: ts2)) o = some t := by
          rw [dictGet_append_left _ _ _ hpre_o, List.zip_cons_cons, dictGet_cons_self]
        have hget_w : dictGet (preW ++ (o :: os2).zip (w :: ws2)) o = some w := by
          rw [dictGet_append_left _ _ _ hpreW_o, List.zip_cons_cons, dictGet_cons_self]
        cases hparse : (row[idx]?).bind floatOfCell with
        | some v =>
          have hok : parseOk row idx = true := by
            rw [parseOk, hparse]
            rfl
          rw [ownerLoopT, hparse]
          simp only [hget_t, hget_w]
          have hsetT : dictSet (pre ++ (o :: os2).zip (t :: ts2)) o (t + v) =
              (pre ++ [(o, t + v)]) ++ os2.zip ts2 := by
            rw [List.zip_cons_cons, dictSet_append_left _ _ _ _ hpre_o, dictSet_cons_self,
              List.append_assoc, List.singleton_append]
          have hsetW : dictSet (preW ++ (o :: os2).zip (w :: ws2)) o (w ++ [v]) =
              (preW ++ [(o, w ++ [v])]) ++ os2.zip ws2 := by
            rw [List.zip_cons_cons, dictSet_append_left _ _ _ _ hpreW_o, dictSet_cons_self,
              List.append_assoc, List.singleton_append]
          rw [hsetT, hsetW]
          rw [ih (idx + 1) ts2 ws2 (pre ++ [(o, t + v)]) (preW ++ [(o, w ++ [v])]) ds hnd2
            (by
              intro o2 ho2
              simp only [List.map_append, List.mem_append, List.map_cons, List.map_nil,
                List.mem_singleton]
              rintro (h | h)
              · exact hpre o2 (by simp [ho2]) h
              · exact hno (h ▸ ho2))
            (by
              intro o2 ho2
              simp only [List.map_append, List.mem_append, List.map_cons, List.map_nil,
                List.mem_singleton]
              rintro (h | h)
              · exact hpreW o2 (by simp [ho2]) h
              · exact hno (h ▸ ho2))
            hts2 hws2]
          rw [addContribs, appContribs, contrib_of_parse row idx v hparse]
          rw [failDiags, if_pos hok]
          simp [List.zip_cons_cons, List.append_assoc]
        | none =>
          have hok : parseOk row idx = false := by
            rw [parseOk, hparse]
            rfl
          rw [ownerLoopT, hparse]
          simp only [hget_w]
          have hsetW : dictSet (preW ++ (o :: os2).zip (w :: ws2)) o (w ++ [0]) =
              (preW ++ [(o, w ++ [0])]) ++ os2.zip ws2 := by
            rw [List.zip_cons_cons, dictSet_append_left _ _ _ _ hpreW_o, dictSet_cons_self,
              List.append_assoc, List.singleton_append]
          have hT : pre ++ (o :: os2).zip (t :: ts2) = (pre ++ [(o, t)]) ++ os2.zip ts2 := by
            rw [List.zip_cons_cons, List.append_assoc, List.singleton_append]
          rw [hsetW, hT]
          rw [ih (idx + 1) ts2 ws2 (pre ++ [(o, t)]) (preW ++ [(o, w ++ [0])])
            (ds ++ [(o, week)]) hnd2
            (by
              intro o2 ho2
              simp only [List.map_append, List.mem_append, List.map_cons, List.map_nil,
                List.mem_singleton]
              rintro (h | h)
              · exact hpre o2 (by simp [ho2]) h
              · exact hno (h ▸ ho2))
            (by
              intro o2 ho2
              simp only [List.map_append, List.mem_append, List.map_cons, List.map_nil,
                List.mem_singleton]
              rintro (h | h)
              · exact hpreW o2 (by simp [ho2]) h
              · exact hno (h ▸ ho2))
            hts2 hws2]
          rw [addContribs, appContribs, contrib_of_fail row idx hparse]
          rw [failDiags, if_neg (by rw [hok]; exact Bool.false_ne_true)]
          simp [List.zip_cons_cons, List.append_assoc, add_zero]

theorem map_const_eq_zip_replicate {α β : Type} (os : List α) (c : β) :
    (os.map fun o => (o, c)) = os.zip (List.replicate os.length c) := by
  induction os with
  | nil => rfl
  | cons o os ih => simp [List.replicate_succ, List.zip_cons_cons, ih]

theorem processSheetT_spec (week : Nat) (hdr : List Cell) (rest : List (List Cell))
    (ts : List ℚ) (ws : List (List ℚ)) (ds : List (Cell × Nat))
    (hnd : hdr.tail.Nodup) (hts : ts.length = hdr.tail.length)
    (hws : ws.length = hdr.tail.length) :
    processSheetT ⟨hdr.tail.zip ts, hdr.tail.zip ws, ds⟩ week (hdr :: rest) =
      some ⟨hdr.tail.zip (addContribs (lastTail (hdr :: rest)) 0 ts),
            hdr.tail.zip (appContribs (lastTail (hdr :: rest)) 0 ws),
            ds ++ failDiags week (lastTail (hdr :: rest)) 0 hdr.tail⟩ := by
  rw [processSheetT]
  cases howners : hdr.tail with
  | nil =>
    rw [howners] at hts hws
    cases ts with
    | nil =>
      cases ws with
      | nil => simp [ownerLoopT, failDiags, lastTail]
      | cons w ws => simp at hws
    | cons t ts => simp at hts
  | cons o1 otl =>
    rw [howners] at hts hws hnd
    cases ts with
    | nil => simp at hts
    | cons t ts2 =>
      cases ws with
      | nil => simp at hws
      | cons w ws2 =>
        simp only [List.zip_cons_cons, List.isEmpty_cons, if_false, Bool.false_eq_true]
        have := ownerLoopT_spec week (lastTail (hdr :: rest)) (o1 :: otl) 0 (t :: ts2)
          (w :: ws2) [] [] ds hnd (by simp) (by simp) hts hws
        simp only [List.nil_append] at this
        simp only [lastTail, List.getLast?_cons, Option.getD_some] at this ⊢
        exact this

theorem foldlM_totals_spec :
    ∀ (sheets : List (Nat × List (List Cell))) (owners : List Cell)
      (ts : List ℚ) (ws : List (List ℚ)) (ds : List (Cell × Nat)),
      owners.Nodup → ts.length = owners.length → ws.length = owners.length →
      (∀ s ∈ sheets, ∃ hdr rest, s.2 = hdr :: rest ∧ hdr.tail = owners) →
      List.foldlM (fun st s => processSheetT st s.1 s.2)
          (⟨owners.zip ts, owners.zip ws, ds⟩ : TotState) sheets =
        some ⟨owners.zip (foldTs sheets ts), owners.zip (foldWs sheets ws),
              ds ++ allFails owners sheets⟩ := by
  intro sheets
  induction sheets with
  | nil =>
    intro owners ts ws ds _ _ _ _
    simp [foldTs, foldWs, allFails]
  | cons s ss ih =>
    intro owners ts ws ds hnd hts hws hshape
    obtain ⟨hdr, rest, hs2, htl⟩ := hshape s (by simp)
    rw [List.foldlM_cons, hs2]
    subst htl
    rw [processSheetT_spec s.1 hdr rest ts ws ds hnd hts hws]
    simp only [Option.bind_eq_bind, Option.some_bind]
    rw [ih hdr.tail (addContribs (lastTail (hdr :: rest)) 0 ts)
      (appContribs (lastTail (hdr :: rest)) 0 ws)
      (ds ++ failDiags s.1 (lastTail (hdr :: rest)) 0 hdr.tail) hnd
      (by rw [addContribs_length, hts])
      (by rw [appContribs_length, hws])
      (fun s' hs' => hshape s' (by simp [hs']))]
    rw [foldTs, foldWs, allFails, hs2, List.append_assoc]

theorem update_totals_core_spec (s0 : Nat × List (List Cell))
    (ss : List (Nat × List (List Cell))) (hdr0 : List Cell)
    (rest0 : List (List Cell)) (hs0 : s0.2 = hdr0 :: rest0)
    (hnd : hdr0.tail.Nodup)
    (hshape : ∀ s ∈ ss, ∃ hdr rest, s.2 = hdr :: rest ∧ hdr.tail = hdr0.tail) :
    update_totals_core (s0 :: ss) =
      some ⟨hdr0.tail.zip (foldTs (s0 :: ss) (List.replicate hdr0.tail.length 0)),
            hdr0.tail.zip (foldWs (s0 :: ss) (List.replicate hdr0.tail.length [])),
            allFails hdr0.tail (s0 :: ss)⟩ := by
  rw [update_totals_core, List.foldlM_cons, hs0]
  have hfirst : processSheetT ⟨[], [], []⟩ s0.1 (hdr0 :: rest0) =
      some ⟨hdr0.tail.zip (addContribs (lastTail (hdr0 :: rest0)) 0
              (List.replicate hdr0.tail.length 0)),
            hdr0.tail.zip (appContribs (lastTail (hdr0 :: rest0)) 0
              (List.replicate hdr0.tail.length [])),
            failDiags s0.1 (lastTail (hdr0 :: rest0)) 0 hdr0.tail⟩ := by
    rw [processSheetT]
    simp only [List.isEmpty_nil, if_true]
    rw [foldl_dictSet_const (0 : ℚ) hdr0.tail [] hnd (by simp),
      foldl_dictSet_const ([] : List ℚ) hdr0.tail [] hnd (by simp)]
    simp only [List.nil_append]
    rw [map_const_eq_zip_replicate, map_const_eq_zip_replicate]
    have := ownerLoopT_spec s0.1 (lastTail (hdr0 :: rest0)) hdr0.tail 0
      (List.replicate hdr0.tail.length 0) (List.replicate hdr0.tail.length [])
      [] [] [] hnd (by simp) (by simp) (by simp) (by simp)
    simp only [List.nil_append] at this
    simp only [lastTail, List.getLast?_cons, Option.getD_some] at this ⊢
    exact this
  rw [hfirst]
  simp only [Option.bind_eq_bind, Option.some_bind]
  rw [foldlM_totals_spec ss hdr0.tail _ _ _ hnd
    (by rw [addContribs_length]; simp)
    (by rw [appContribs_length]; simp) hshape]
  rw [foldTs, foldWs, allFails, hs0]

theorem zip_getElem? {α β : Type} :
    ∀ (l : List α) (l' : List β) (i : Nat),
      (l.zip l')[i]? = (l[i]?).bind fun a => (l'[i]?).map fun b => (a, b) := by
  intro l
  induction l with
  | nil => intro l' i; simp
  | cons a l ih =>
    intro l' i
    cases l' with
    | nil => simp
    | cons b l' =>
      cases i with
      | zero => simp [List.zip_cons_cons]
      | succ i => simp [List.zip_cons_cons, ih]

theorem zip_map_snd {α β γ : Type} (f : β → γ) :
    ∀ (l : List α) (l' : List β), l.length = l'.length →
      (l.zip l').map (fun p => f p.2) = l'.map f := by
  intro l
  induction l with
  | nil =>
    intro l' h
    cases l' with
    | nil => rfl
    | cons b l' => simp at h
  | cons a l ih =>
    intro l' h
    cases l' with
    | nil => simp at h
    | cons b l' => simp [List.zip_cons_cons, ih l' (by simpa using h)]

theorem addContribs_getElem? (row : List Cell) :
    ∀ (ts : List ℚ) (idx j : Nat),
      (addContribs row idx ts)[j]? = (ts[j]?).map fun t => t + contrib row (idx + j) := by
  intro ts
  induction ts with
  | nil => intro idx j; simp [addContribs]
  | cons t ts ih =>
    intro idx j
    cases j with
    | zero => simp [addContribs]
    | succ j =>
      simp only [addContribs, List.getElem?_cons_succ, ih (idx + 1) j]
      have : idx + 1 + j = idx + (j + 1) := by omega
      rw [this]

theorem appContribs_getElem? (row : List Cell) :
    ∀ (ws : List (List ℚ)) (idx j : Nat),
      (appContribs row idx ws)[j]? = (ws[j]?).map fun w => w ++ [contrib row (idx + j)] := by
  intro ws
  induction ws with
  | nil => intro idx j; simp [appContribs]
  | cons w ws ih =>
    intro idx j
    cases j with
    | zero => simp [appContribs]
    | succ j =>
      simp only [appContribs, List.getElem?_cons_succ, ih (idx + 1) j]
      have : idx + 1 + j = idx + (j + 1) := by omega
      rw [this]

theorem foldTs_getElem? :
    ∀ (sheets : List (Nat × List (List Cell))) (ts : List ℚ) (j : Nat),
      (foldTs sheets ts)[j]? =
        (ts[j]?).map fun t => t + ((sheets.map fun s => contrib (lastTail s.2) j).sum) := by
  intro sheets
  induction sheets with
  | nil =>
    intro ts j
    rw [foldTs]
    cases ts[j]? <;> simp
  | cons s ss ih =>
    intro ts j
    rw [foldTs, ih, addContribs_getElem?]
    cases ts[j]? <;> simp [add_assoc, Nat.zero_add]

theorem foldWs_getElem? :
    ∀ (sheets : List (Nat × List (List Cell))) (ws : List (List ℚ)) (j : Nat),
      (foldWs sheets ws)[j]? =
        (ws[j]?).map fun w => w ++ sheets.map fun s => contrib (lastTail s.2) j := by
  intro sheets
  induction sheets with
  | nil =>
    intro ws j
    rw [foldWs]
    cases ws[j]? <;> simp
  | cons s ss ih =>
    intro ws j
    rw [foldWs, ih, appContribs_getElem?]
    cases ws[j]? <;> simp [Nat.zero_add]

theorem foldTs_length :
    ∀ (sheets : List (Nat × List (List Cell))) (ts : List ℚ),
      (foldTs sheets ts).length = ts.length := by
  intro sheets
  induction sheets with
  | nil => intro ts; rfl
  | cons s ss ih => intro ts; rw [foldTs, ih, addContribs_length]

theorem foldWs_length :
    ∀ (sheets : List (Nat × List (List Cell))) (ws : List (List ℚ)),
      (foldWs sheets ws).length = ws.length := by
  intro sheets
  induction sheets with
  | nil => intro ws; rfl
  | cons s ss ih => intro ws; rw [foldWs, ih, appContribs_length]

theorem failDiags_mem (week : Nat) (row : List Cell) :
    ∀ (os : List Cell) (idx j : Nat) (o : Cell),
      os[j]? = some o → parseOk row (idx + j) = false →
      (o, week) ∈ failDiags week row idx os := by
  intro os
  induction os with
  | nil => intro idx j o h _; simp at h
  | cons o0 os ih =>
    intro idx j o hj hfail
    cases j with
    | zero =>
      simp only [List.getElem?_cons_zero, Option.some.injEq] at hj
      subst hj
      rw [Nat.add_zero] at hfail
      rw [failDiags, if_neg (by rw [hfail]; exact Bool.false_ne_true)]
      exact List.mem_cons_self _ _
    | succ j =>
      rw [List.getElem?_cons_succ] at hj
      have hf : parseOk row (idx + 1 + j) = false := by
        have : idx + 1 + j = idx + (j + 1) := by omega
        rw [this]
        exact hfail
      rw [failDiags]
      by_cases hok : parseOk row idx = true
      · rw [if_pos hok]
        exact ih (idx + 1) j o hj hf
      · rw [if_neg hok]
        exact List.mem_cons_of_mem _ (ih (idx + 1) j o hj hf)

theorem allFails_mem (owners : List Cell) :
    ∀ (sheets : List (Nat × List (List Cell))) (k : Nat) (s : Nat × List (List Cell))
      (d : Cell × Nat),
      sheets[k]? = some s → d ∈ failDiags s.1 (lastTail s.2) 0 owners →
      d ∈ allFails owners sheets := by
  intro sheets
  induction sheets with
  | nil => intro k s d h _; simp at h
  | cons s0 ss ih =>
    intro k s d hk hd
    cases k with
    | zero =>
      simp only [List.getElem?_cons_zero, Option.some.injEq] at hk
      subst hk
      exact List.mem_append_left _ hd
    | succ k =>
      rw [List.getElem?_cons_succ] at hk
      exact List.mem_append_right _ (ih k s d hk hd)

/-! ## Stability of the standings sort -/

theorem filter_orderedInsert (q : ℚ) (x : Cell × ℚ) :
    ∀ l : List (Cell × ℚ),
      (List.orderedInsert rankLE x l).filter (fun p => decide (p.2 = q)) =
        if x.2 = q then x :: l.filter (fun p => decide (p.2 = q))
        else l.filter fun p => decide (p.2 = q) := by
  intro l
  induction l with
  | nil =>
    by_cases hx : x.2 = q <;> simp [List.orderedInsert, List.filter, hx]
  | cons b t ih =>
    rw [List.orderedInsert]
    by_cases hxb : rankLE x b
    · rw [if_pos hxb]
      by_cases hx : x.2 = q <;> simp [List.filter, hx]
    · rw [if_neg hxb]
      have hbq : x.2 = q → ¬ b.2 = q := by
        intro hx hb
        exact hxb (by rw [rankLE, hb, hx])
      by_cases hx : x.2 = q
      · have hb : ¬ b.2 = q := hbq hx
        simp [List.filter_cons, hb, ih, hx]
      · by_cases hb : b.2 = q <;> simp [List.filter_cons, hb, ih, hx]

theorem filter_insertionSort (q : ℚ) :
    ∀ l : List (Cell × ℚ),
      (List.insertionSort rankLE l).filter (fun p => decide (p.2 = q)) =
        l.filter fun p => decide (p.2 = q) := by
  intro l
  induction l with
  | nil => rfl
  | cons x l ih =>
    rw [List.insertionSort, filter_orderedInsert, ih]
    by_cases hx : x.2 = q <;> simp [List.filter_cons, hx]

/-- C2: over any run of weekly sheets sharing one owner header whose TOTAL
rows are numeric, the accumulator succeeds and its final TOTAL row carries,
per owner (in column order), the sum of that owner's per-round TOTAL values;
the produced standings are a permutation of the owner/total pairs, sorted by
cumulative total descending, with ties kept in the owners' insertion order
(the stable-sort filter property); and on the concrete example with TOTAL
rows `[10, 20]` and `[5, 25]` for owners A, B the final TOTAL row is
`[15, 45]` and the standings are B(45), A(15). -/
theorem C2_running_totals_and_ranking :
    (∀ (s0 : Nat × List (List Cell)) (ss : List (Nat × List (List Cell)))
        (hdr0 : List Cell) (rest0 : List (List Cell)),
      s0.2 = hdr0 :: rest0 → hdr0.tail.Nodup →
      (∀ s ∈ ss, ∃ hdr rest, s.2 = hdr :: rest ∧ hdr.tail = hdr0.tail) →
      (∀ s ∈ s0 :: ss, ∀ j, j < hdr0.tail.length → parseOk (lastTail s.2) j = true) →
      ∃ st, update_totals_core (s0 :: ss) = some st ∧
        finalTotalRow st = Cell.str "TOTAL" ::
          ((List.range hdr0.tail.length).map fun j =>
            Cell.num (((s0 :: ss).map fun s => contrib (lastTail s.2) j).sum)) ∧
        (∀ (row : List Cell) (j : Nat) (v : ℚ), row[j]? = some (Cell.num v) →
          contrib row j = v) ∧
        List.Perm (standings st) st.totals ∧
        List.Sorted rankLE (standings st) ∧
        (∀ q : ℚ, (standings st).filter (fun p => decide (p.2 = q)) =
          st.totals.filter fun p => decide (p.2 = q))) ∧
    (∃ st, update_totals_core [exSheet1, exSheet2] = some st ∧
      finalTotalRow st = [Cell.str "TOTAL", Cell.num 15, Cell.num 45] ∧
      standings st = [(Cell.str "B", 45), (Cell.str "A", 15)]) := by
  constructor
  · intro s0 ss hdr0 rest0 hs0 hnd hshape _hnum
    refine ⟨_, update_totals_core_spec s0 ss hdr0 rest0 hs0 hnd hshape, ?_, ?_, ?_, ?_, ?_⟩
    · rw [finalTotalRow]
      simp only [List.cons.injEq, true_and]
      rw [zip_map_snd _ hdr0.tail _ (by rw [foldTs_length, List.length_replicate])]
      apply List.ext_getElem?
      intro j
      rw [List.getElem?_map, List.getElem?_map, foldTs_getElem?]
      by_cases hj : j < hdr0.tail.length
      · rw [List.getElem?_range hj, List.getElem?_replicate, if_pos hj]
        simp
      · rw [List.getElem?_eq_none (by simpa using not_lt.mp hj),
          List.getElem?_eq_none (by rw [List.length_range]; exact not_lt.mp hj)]
        simp
    · intro row j v hcell
      simp [contrib, hcell, floatOfCell]
    · exact List.perm_insertionSort rankLE _
    · exact List.sorted_insertionSort rankLE _
    · intro q
      exact filter_insertionSort q _
  · refine ⟨⟨[(Cell.str "A", 15), (Cell.str "B", 45)],
      [(Cell.str "A", [10, 5]), (Cell.str "B", [20, 25])], []⟩, ?_, rfl, ?_⟩
    · simp [update_totals_core, exSheet1, exSheet2, processSheetT, ownerLoopT,
        lastTail, dictGet, dictSet, floatOfCell]
      norm_num
    · simp [standings, List.insertionSort, List.orderedInsert, rankLE]
      norm_num

/-- Witness for C2's general part at the concrete two-sheet example. -/
theorem C2_running_totals_and_ranking_witness :
    ∃ st, update_totals_core [exSheet1, exSheet2] = some st ∧
      finalTotalRow st = Cell.str "TOTAL" ::
        ((List.range ([Cell.str "Position", Cell.str "A", Cell.str "B"] : List Cell).tail.length).map
          fun j => Cell.num ((([exSheet1, exSheet2]).map
            fun s => contrib (lastTail s.2) j).sum)) ∧
      (∀ (row : List Cell) (j : Nat) (v : ℚ), row[j]? = some (Cell.num v) →
        contrib row j = v) ∧
      List.Perm (standings st) st.totals ∧
      List.Sorted rankLE (standings st) ∧
      (∀ q : ℚ, (standings st).filter (fun p => decide (p.2 = q)) =
        st.totals.filter fun p => decide (p.2 = q)) :=
  C2_running_totals_and_ranking.1 exSheet1 [exSheet2]
    [Cell.str "Position", Cell.str "A", Cell.str "B"]
    [[Cell.str "TOTAL", Cell.num 10, Cell.num 20]] rfl (by decide)
    (by
      intro s hs
      simp only [List.mem_singleton] at hs
      subst hs
      exact ⟨_, _, rfl, rfl⟩)
    (by
      intro s hs j hj
      simp only [List.mem_cons, List.mem_singleton] at hs
      have hs2 : s = exSheet1 ∨ s = exSheet2 := by
        simpa [exSheet1, exSheet2] using hs
      have hj2 : j = 0 ∨ j = 1 := by
        simp at hj
        omega
      rcases hj2 with rfl | rfl <;> rcases hs2 with rfl | rfl <;> decide)

/-- C7: when the TOTAL-row cell of owner column `j` in round sheet `k` is
non-numeric or missing (fails to parse), the accumulator still succeeds,
that cell contributes exactly 0.0 (its parsed contribution is 0, so the
owner's weekly entry for that round is 0 and the cumulative total receives
0 from it), a diagnostic naming the owner and the week is emitted, and every
owner's running total and weekly list — in particular every other owner's,
and every other round's value — equals the aggregate of that owner's own
column cells alone, unchanged by the malformed cell. -/
theorem C7_malformed_cell_contributes_zero :
    ∀ (s0 : Nat × List (List Cell)) (ss : List (Nat × List (List Cell)))
      (hdr0 : List Cell) (rest0 : List (List Cell)) (k j : Nat)
      (sk : Nat × List (List Cell)),
      s0.2 = hdr0 :: rest0 → hdr0.tail.Nodup →
      (∀ s ∈ ss, ∃ hdr rest, s.2 = hdr :: rest ∧ hdr.tail = hdr0.tail) →
      (s0 :: ss)[k]? = some sk →
      parseOk (lastTail sk.2) j = false →
      ∃ st, update_totals_core (s0 :: ss) = some st ∧
        contrib (lastTail sk.2) j = 0 ∧
        (∀ i o, hdr0.tail[i]? = some o →
          st.totals[i]? =
            some (o, ((s0 :: ss).map fun s => contrib (lastTail s.2) i).sum) ∧
          st.weekly[i]? =
            some (o, (s0 :: ss).map fun s => contrib (lastTail s.2) i)) ∧
        (∀ o, hdr0.tail[j]? = some o →
          ((s0 :: ss).map fun s => contrib (lastTail s.2) j)[k]? = some 0 ∧
          (o, sk.1) ∈ st.diags) := by
  intro s0 ss hdr0 rest0 k j sk hs0 hnd hshape hk hfail
  refine ⟨_, update_totals_core_spec s0 ss hdr0 rest0 hs0 hnd hshape,
    parseOk_false_contrib _ _ hfail, ?_, ?_⟩
  · intro i o hio
    have hi : i < hdr0.tail.length := by
      by_cases h : i < hdr0.tail.length
      · exact h
      · rw [List.getElem?_eq_none (not_lt.mp h)] at hio
        exact absurd hio (by simp)
    constructor
    · dsimp only
      rw [zip_getElem?, hio, Option.some_bind, foldTs_getElem?,
        List.getElem?_replicate, if_pos hi]
      simp
    · dsimp only
      rw [zip_getElem?, hio, Option.some_bind, foldWs_getElem?,
        List.getElem?_replicate, if_pos hi]
      simp
  · intro o hjo
    constructor
    · rw [List.getElem?_map, hk, Option.map_some']
      rw [parseOk_false_contrib _ _ hfail]
    · dsimp only
      apply allFails_mem hdr0.tail (s0 :: ss) k sk (o, sk.1) hk
      apply failDiags_mem sk.1 (lastTail sk.2) hdr0.tail 0 j o hjo
      rw [Nat.zero_add]
      exact hfail

/-- Witness for C7: week 2's TOTAL cell for owner A is the non-numeric
"oops". -/
theorem C7_malformed_cell_contributes_zero_witness :
    ∃ st, update_totals_core [exSheet1, exSheet2bad] = some st ∧
      contrib (lastTail exSheet2bad.2) 0 = 0 ∧
      (∀ i o, ([Cell.str "Position", Cell.str "A", Cell.str "B"] : List Cell).tail[i]? = some o →
        st.totals[i]? =
          some (o, (([exSheet1, exSheet2bad]).map fun s => contrib (lastTail s.2) i).sum) ∧
        st.weekly[i]? =
          some (o, ([exSheet1, exSheet2bad]).map fun s => contrib (lastTail s.2) i)) ∧
      (∀ o, ([Cell.str "Position", Cell.str "A", Cell.str "B"] : List Cell).tail[0]? = some o →
        (([exSheet1, exSheet2bad]).map fun s => contrib (lastTail s.2) 0)[1]? = some 0 ∧
        (o, exSheet2bad.1) ∈ st.diags) :=
  C7_malformed_cell_contributes_zero exSheet1 [exSheet2bad]
    [Cell.str "Position", Cell.str "A", Cell.str "B"]
    [[Cell.str "TOTAL", Cell.num 10, Cell.num 20]] 1 0 exSheet2bad rfl (by decide)
    (by
      intro s hs
      simp only [List.mem_singleton] at hs
      subst hs
      exact ⟨_, _, rfl, rfl⟩)
    (by decide) (by decide)

end Fpc
